import Mathlib

/-!
Verification development for the Panther log-processing core: the AWS indicator
scanners of `internal/log_analysis/log_processor/parsers/awslogs/pantherlog.go`
and the time-codec system of
`internal/log_analysis/log_processor/pantherlog/tcodec/tcodec.go`.

Modelling conventions:
* Go strings are byte sequences (`List Nat`); all byte-position arithmetic
  (`len`, `strings.LastIndex`, slicing) is done on bytes, as in Go.
* Go `float64` values are modelled as exact rationals; the claims this affects
  only need precision bounds that the exact model also satisfies.
* `time.Time` is an instant in nanoseconds since the Unix epoch together with a
  location. The `Int` nanosecond count is exact: the int64 overflow of
  `UnixNano` for years far outside 1678..2262 is not modelled, and no claim
  reaches that regime.
* Scanners are modelled by the ordered trace of `ValueWriter.WriteValues` calls
  they perform; decoders by a function from the raw JSON value to the decoded
  time and the error state left on the iterator.
-/

namespace Panther

/-! ## Go strings as bytes -/

/-- A Go string, modelled as its sequence of UTF-8 bytes. -/
abbrev GoStr := List Nat

/-- Bytes of an ASCII string literal. Every concrete input in this file is
ASCII, where UTF-8 bytes coincide with code points. -/
def asciiStr (s : String) : GoStr := s.toList.map Char.toNat

/-- Go `strings.HasPrefix s pre` over bytes. -/
def bytesStartsWith : GoStr → GoStr → Bool
  | _, [] => true
  | [], _ :: _ => false
  | a :: s, b :: p => a == b && bytesStartsWith s p

/-- Go `strings.LastIndex(s, sep)` for a one-byte separator: the byte index of
the last occurrence, or `-1` when absent. -/
def lastIndexByte (s : GoStr) (b : Nat) : Int :=
  (s.foldl (fun acc x => (acc.1 + 1, if x == b then acc.1 else acc.2))
    ((0 : Int), (-1 : Int))).2

/-- One step of Go `strings.SplitN`: split at the first occurrence of `sep`. -/
def splitFirst : GoStr → Nat → Option (GoStr × GoStr)
  | [], _ => none
  | b :: rest, sep =>
    if b == sep then some ([], rest)
    else
      match splitFirst rest sep with
      | none => none
      | some (p, q) => some (b :: p, q)

/-- Go `strings.SplitN(s, sep, n)` for a one-byte separator: at most `n`
parts, the last one holding the unsplit remainder. -/
def splitN (s : GoStr) (sep : Nat) (n : Nat) : List GoStr :=
  match n with
  | 0 => []
  | 1 => [s]
  | Nat.succ m =>
    match splitFirst s sep with
    | none => [s]
    | some (p, q) => p :: splitN q sep m

/-! ## aws-sdk-go ARN parsing -/

/-- The parsed ARN structure of `github.com/aws/aws-sdk-go/aws/arn`. -/
structure ARN where
  arnPartition : GoStr
  service : GoStr
  region : GoStr
  accountID : GoStr
  resource : GoStr
deriving DecidableEq

/-- `arn.Parse` from aws-sdk-go: requires the literal "arn:" at the start and
exactly 6 colon-separated sections (`strings.SplitN(input, ":", 6)`); on
success the sections after the leading "arn" populate the five fields. -/
def arnParse (input : GoStr) : Option ARN :=
  if bytesStartsWith input (asciiStr "arn:") then
    let sections := splitN input 58 6
    if sections.length == 6 then
      some { arnPartition := sections.getD 1 []
             service := sections.getD 2 []
             region := sections.getD 3 []
             accountID := sections.getD 4 []
             resource := sections.getD 5 [] }
    else none
  else none

/-! ## Indicator fields and scanners -/

/-- `pantherlog.FieldID` constants declared in awslogs (`1000 + iota`). -/
def FieldAccountID : Nat := 1000

def FieldInstanceID : Nat := 1001

def FieldARN : Nat := 1002

def FieldTag : Nat := 1003

/-- One `ValueWriter.WriteValues` call: the target field id and the value
written. A scanner run is modelled as the ordered list of such calls. -/
abbrev Write := Nat × GoStr

/-- Semantics of the RE2 pattern of `awsAccountIDRegex`, which anchors twelve
ASCII-digit runes to both ends of the input: the whole input is exactly twelve
bytes in `'0'..'9'`. -/
def awsAccountIDRegexMatch (s : GoStr) : Bool :=
  s.length == 12 && s.all (fun b => 48 ≤ b && b ≤ 57)

/-- `ScanAccountID`: write the input to the account-id field when its byte
length is 12 and `awsAccountIDRegex` matches it. -/
def ScanAccountID (input : GoStr) : List Write :=
  if input.length == 12 && awsAccountIDRegexMatch input then
    [(FieldAccountID, input)]
  else []

/-- `ScanInstanceID`: write the input when it starts with "i-". -/
def ScanInstanceID (input : GoStr) : List Write :=
  if bytesStartsWith input (asciiStr "i-") then [(FieldInstanceID, input)]
  else []

/-- The argument that `scanResourceInstanceID` passes to `ScanInstanceID`, when
any: the input must start with "instance/", and with `slashIndex` the byte index
of the last "/" the source guard is `slashIndex < len(input)-2`. -/
def resourceInstanceArg (input : GoStr) : Option GoStr :=
  if bytesStartsWith input (asciiStr "instance/") then
    let slashIndex := lastIndexByte input 47
    if slashIndex < (input.length : Int) - 2 then
      some (input.drop (slashIndex + 1).toNat)
    else none
  else none

/-- `scanResourceInstanceID`: run `ScanInstanceID` on the extracted id, if the
guard extracted one. -/
def scanResourceInstanceID (input : GoStr) : List Write :=
  match resourceInstanceArg input with
  | some rest => ScanInstanceID rest
  | none => []

/-- `ScanARN`: on parse failure do nothing; on success write the raw input to
the ARN field, scan the parsed account id, then scan the parsed resource for an
embedded instance id. -/
def ScanARN (input : GoStr) : List Write :=
  match arnParse input with
  | none => []
  | some parsedARN =>
    (FieldARN, input) ::
      (ScanAccountID parsedARN.accountID ++
        scanResourceInstanceID parsedARN.resource)

/-! ## The AWSPantherLog row and its append methods -/

/-- The four indicator collections of `AWSPantherLog`; each field is a
`*parsers.PantherAnyString`, i.e. a lazily created collection, modelled as
`Option` of the collected values. -/
structure AWSPantherLog where
  accountIds : Option (List GoStr)
  instanceIds : Option (List GoStr)
  arns : Option (List GoStr)
  tags : Option (List GoStr)
deriving DecidableEq

/-- A fresh row: all four collections still nil. -/
def emptyRow : AWSPantherLog := ⟨none, none, none, none⟩

/-- Modelled from the spec: `parsers.AppendAnyString` (its source file is not
part of this snapshot). Per the spec, the writer "appends each value to the
row's indicator collection; multiple calls and multiple values accumulate
(union), never overwrite", and the collection keeps "membership deduplicated,
insertion order preserved". `parsers.NewPantherAnyString` is the empty
collection. -/
def AppendAnyString (coll : List GoStr) (values : List GoStr) : List GoStr :=
  values.foldl (fun acc v => if v ∈ acc then acc else acc ++ [v]) coll

/-- `AWSPantherLog.AppendAnyAWSAccountIds`: for each value, skip it unless
`awsAccountIDRegex` matches; only then lazily create the collection and append
the single value. -/
def AppendAnyAWSAccountIds (pl : AWSPantherLog) (values : List GoStr) :
    AWSPantherLog :=
  values.foldl
    (fun pl value =>
      if awsAccountIDRegexMatch value then
        { pl with
          accountIds := some (AppendAnyString (pl.accountIds.getD []) [value]) }
      else pl)
    pl

/-- `AWSPantherLog.AppendAnyAWSInstanceIds`: lazily create the collection
before looking at any value, then append all values. -/
def AppendAnyAWSInstanceIds (pl : AWSPantherLog) (values : List GoStr) :
    AWSPantherLog :=
  { pl with
    instanceIds := some (AppendAnyString (pl.instanceIds.getD []) values) }

/-- `AWSPantherLog.AppendAnyAWSARNs`: lazily create, then append all values. -/
def AppendAnyAWSARNs (pl : AWSPantherLog) (values : List GoStr) :
    AWSPantherLog :=
  { pl with arns := some (AppendAnyString (pl.arns.getD []) values) }

/-- `AWSPantherLog.AppendAnyAWSTags`: lazily create, then append all values. -/
def AppendAnyAWSTags (pl : AWSPantherLog) (values : List GoStr) :
    AWSPantherLog :=
  { pl with tags := some (AppendAnyString (pl.tags.getD []) values) }

/-! ## time.Time -/

/-- A `time.Location`, reduced to a zone name and a fixed offset in minutes. -/
structure Location where
  name : String
  offsetMin : Int
deriving DecidableEq

/-- `time.UTC`. -/
def utcLoc : Location := ⟨"UTC", 0⟩

/-- `time.Local`; its actual offset is irrelevant to every claim (no claim
formats a local-zone time), so it is kept at 0. -/
def localLoc : Location := ⟨"Local", 0⟩

/-- `time.Time`: an instant in nanoseconds since the Unix epoch, plus a
location. -/
structure GoTime where
  nanos : Int
  loc : Location
deriving DecidableEq

/-- Nanoseconds since the Unix epoch of the zero `time.Time`, which is
0001-01-01T00:00:00 UTC: `-62135596800 * 10^9`. -/
def zeroNanos : Int := -62135596800000000000

/-- The zero `time.Time` value. -/
def zeroTime : GoTime := ⟨zeroNanos, utcLoc⟩

/-- `time.Time.IsZero`: compares the wall clock only; the location does not
matter. -/
def GoTime.isZero (t : GoTime) : Bool := t.nanos == zeroNanos

/-- `time.Time.In`: same instant, new location. -/
def GoTime.inLoc (t : GoTime) (l : Location) : GoTime := ⟨t.nanos, l⟩

/-- `tm.Truncate(time.Microsecond)`: round down to a whole microsecond. Go
truncates relative to the zero time, which is itself on a whole microsecond, so
this agrees with truncating the Unix-epoch nanosecond count. -/
def truncMicro (t : GoTime) : GoTime := ⟨t.nanos - t.nanos.emod 1000, t.loc⟩

/-- Go's conversion `int64(f)` of a float to an integer: truncation toward
zero, here applied to an exact rational. -/
def ratTrunc (q : ℚ) : Int := q.num.tdiv (q.den : Int)

/-- `tcodec.UnixSeconds`: scale to microseconds, truncate, then build the
instant with `time.Unix(0, int64(sec*usec)*precision)` (location `Local`). -/
def UnixSeconds (sec : ℚ) : GoTime := ⟨ratTrunc (sec * 1000000) * 1000, localLoc⟩

/-- `tcodec.UnixMilliseconds`: `time.Unix(0, n*int64(time.Millisecond))`. -/
def UnixMilliseconds (n : Int) : GoTime := ⟨n * 1000000, localLoc⟩

/-! ## Calendar arithmetic and RFC3339 formatting / parsing

These model the parts of the Go standard library `time` package that the
codecs call. -/

/-- Days since the Unix epoch of a proleptic-Gregorian civil date. -/
def daysFromCivil (y m d : Int) : Int :=
  let y := y - (if m ≤ 2 then 1 else 0)
  let era := (if 0 ≤ y then y else y - 399) / 400
  let yoe := y - era * 400
  let mp := if 2 < m then m - 3 else m + 9
  let doy := (153 * mp + 2) / 5 + d - 1
  let doe := yoe * 365 + yoe / 4 - yoe / 100 + doy
  era * 146097 + doe - 719468

/-- Civil date (year, month, day) of a count of days since the Unix epoch. -/
def civilFromDays (z : Int) : Int × Int × Int :=
  let z := z + 719468
  let era := (if 0 ≤ z then z else z - 146096) / 146097
  let doe := z - era * 146097
  let yoe := (doe - doe / 1460 + doe / 36524 - doe / 146096) / 365
  let y := yoe + era * 400
  let doy := doe - (365 * yoe + yoe / 4 - yoe / 100)
  let mp := (5 * doy + 2) / 153
  let d := doy - (153 * mp + 2) / 5 + 1
  let m := if mp < 10 then mp + 3 else mp - 9
  (y + (if m ≤ 2 then 1 else 0), m, d)

/-- A UTC instant from civil components. -/
def mkUTC (y m d hh mi ss ns : Int) : GoTime :=
  ⟨(daysFromCivil y m d * 86400 + hh * 3600 + mi * 60 + ss) * 1000000000 + ns,
    utcLoc⟩

/-- Zero-pad a natural number to `w` digits. -/
def padNat (w n : Nat) : String :=
  let s := toString n
  String.mk (List.replicate (w - s.length) '0') ++ s

/-- Drop trailing `'0'` characters. -/
def trimTrailZeros (s : String) : String :=
  String.mk ((s.toList.reverse.dropWhile (fun c => c == '0')).reverse)

/-- Go's "Z07:00" layout element: "Z" for a zero zone offset, otherwise a
signed hh:mm offset. -/
def offsetStr (offMin : Int) : String :=
  if offMin == 0 then "Z"
  else
    let sign := if offMin < 0 then "-" else "+"
    let a := offMin.natAbs
    sign ++ padNat 2 (a / 60) ++ ":" ++ padNat 2 (a % 60)

/-- Go `time.Time.Format` with the RFC3339 (`nano := false`) or RFC3339Nano
(`nano := true`) reference layout. RFC3339Nano prints the fractional second
with trailing zeros removed and omits it entirely when it is zero. -/
def formatRFC3339 (t : GoTime) (nano : Bool) : String :=
  let wall := t.nanos + t.loc.offsetMin * 60 * 1000000000
  let sec := wall.ediv 1000000000
  let ns := (wall.emod 1000000000).toNat
  let days := sec.ediv 86400
  let sod := (sec.emod 86400).toNat
  let c := civilFromDays days
  let frac :=
    if nano && ns != 0 then "." ++ trimTrailZeros (padNat 9 ns) else ""
  padNat 4 c.1.toNat ++ "-" ++ padNat 2 c.2.1.toNat ++ "-" ++
    padNat 2 c.2.2.toNat ++ "T" ++ padNat 2 (sod / 3600) ++ ":" ++
    padNat 2 (sod % 3600 / 60) ++ ":" ++ padNat 2 (sod % 60) ++ frac ++
    offsetStr t.loc.offsetMin

/-- The `time.RFC3339` reference layout string. -/
def rfc3339Layout : String := "2006-01-02T15:04:05Z07:00"

/-- The `time.RFC3339Nano` reference layout string. -/
def rfc3339NanoLayout : String := "2006-01-02T15:04:05.999999999Z07:00"

/-- Modelled from the Go standard library `time.Time.Format`, restricted to
the layouts this development exercises: the RFC3339 and RFC3339Nano reference
layouts are formatted in full; any other layout is emitted as literal text
(exact for layouts containing no reference elements; no claim evaluates the
formatter on other layouts). -/
def goTimeFormat (t : GoTime) (layout : String) : String :=
  if layout == rfc3339Layout then formatRFC3339 t false
  else if layout == rfc3339NanoLayout then formatRFC3339 t true
  else layout

/-- Is `c` an ASCII digit? -/
def isDigitChar (c : Char) : Bool := '0' ≤ c && c ≤ '9'

/-- Read exactly `n` digits into a number, returning the rest. -/
def takeDigitsAux : Nat → Nat → List Char → Option (Nat × List Char)
  | acc, 0, cs => some (acc, cs)
  | _, _ + 1, [] => none
  | acc, n + 1, c :: cs =>
    if isDigitChar c then takeDigitsAux (acc * 10 + (c.toNat - 48)) n cs
    else none

/-- Read exactly `n` digits. -/
def takeDigits (n : Nat) (cs : List Char) : Option (Nat × List Char) :=
  takeDigitsAux 0 n cs

/-- Expect a single literal character. -/
def expectChar (c : Char) : List Char → Option (List Char)
  | x :: rest => if x == c then some rest else none
  | [] => none

/-- Read a maximal nonempty run of digits, keeping the digit characters. -/
def takeDigitRun : List Char → List Char × List Char
  | [] => ([], [])
  | c :: cs =>
    if isDigitChar c then
      let r := takeDigitRun cs
      (c :: r.1, r.2)
    else ([], c :: cs)

/-- Value of a digit-character list, scaled as a nanosecond fraction: the
first nine digits are significant, missing places count as zero. -/
def fracNanos (ds : List Char) : Nat :=
  let d9 := ds.take 9
  (d9.foldl (fun a c => a * 10 + (c.toNat - 48)) 0) * 10 ^ (9 - d9.length)

/-- Days in a month of the proleptic Gregorian calendar. -/
def daysInMonth (y : Int) (m : Nat) : Nat :=
  if m == 2 then
    if y % 4 == 0 && (y % 100 != 0 || y % 400 == 0) then 29 else 28
  else if m == 4 || m == 6 || m == 9 || m == 11 then 30
  else 31

/-- The timezone suffix of an RFC3339 value: "Z" or a signed hh:mm offset.
Returns the offset in minutes and whether the zone was "Z" (UTC). -/
def parseRFC3339Zone : List Char → Option (Int × Bool)
  | ['Z'] => some (0, true)
  | c :: rest =>
    if c == '+' || c == '-' then
      match takeDigits 2 rest with
      | some (hh, rest) =>
        match expectChar ':' rest with
        | some rest =>
          match takeDigits 2 rest with
          | some (mm, []) =>
            let off : Int := hh * 60 + mm
            some (if c == '-' then -off else off, false)
          | _ => none
        | none => none
      | none => none
    else none
  | [] => none

/-- Modelled from Go `time.Parse` with the `time.RFC3339` layout: a strict
"yyyy-mm-ddThh:mm:ss" with an optional fractional second and a "Z" or signed
"hh:mm" zone, with the range checks Go performs; everything else (including the
empty string) is a parse error, reported as `Except.error`. -/
def parseRFC3339 (s : String) : Except String GoTime :=
  let fail : Except String GoTime :=
    Except.error ("parsing time " ++ s ++ " as RFC3339: cannot parse")
  match takeDigits 4 s.toList with
  | none => fail
  | some (y, rest) =>
    match expectChar '-' rest with
    | none => fail
    | some rest =>
      match takeDigits 2 rest with
      | none => fail
      | some (mo, rest) =>
        match expectChar '-' rest with
        | none => fail
        | some rest =>
          match takeDigits 2 rest with
          | none => fail
          | some (d, rest) =>
            match expectChar 'T' rest with
            | none => fail
            | some rest =>
              match takeDigits 2 rest with
              | none => fail
              | some (hh, rest) =>
                match expectChar ':' rest with
                | none => fail
                | some rest =>
                  match takeDigits 2 rest with
                  | none => fail
                  | some (mi, rest) =>
                    match expectChar ':' rest with
                    | none => fail
                    | some rest =>
                      match takeDigits 2 rest with
                      | none => fail
                      | some (ss, rest) =>
                        let fracAndZone :=
                          match rest with
                          | '.' :: more =>
                            match takeDigitRun more with
                            | ([], _) => none
                            | (ds, after) => some (fracNanos ds, after)
                          | _ => some (0, rest)
                        match fracAndZone with
                        | none => fail
                        | some (ns, rest) =>
                          match parseRFC3339Zone rest with
                          | none => fail
                          | some (off, isUTC) =>
                            if 1 ≤ mo && mo ≤ 12 && 1 ≤ d &&
                                d ≤ daysInMonth y mo && hh ≤ 23 &&
                                mi ≤ 59 && ss ≤ 59 then
                              let t := mkUTC y mo d hh mi ss ns
                              Except.ok
                                ⟨t.nanos - off * 60 * 1000000000,
                                  if isUTC then utcLoc else ⟨"", off⟩⟩
                            else fail

/-- Modelled from Go `time.Parse`, restricted to what this development
exercises: the RFC3339 layout is parsed in full; any other layout is treated
as literal text (exact for layouts with no reference elements: the value must
equal the layout, and all components default to 0000-01-01T00:00:00 UTC, as Go
defaults elements missing from the layout). -/
def goTimeParse (layout s : String) : Except String GoTime :=
  if layout == rfc3339Layout then parseRFC3339 s
  else if s == layout then Except.ok (mkUTC 0 1 1 0 0 0 0)
  else Except.error ("parsing time " ++ s ++ " as " ++ layout ++ ": cannot parse")

/-- Modelled from Go `strconv.ParseInt(s, 10, 64)`: optional sign, decimal
digits, with the int64 range check. -/
def parseGoInt (s : String) : Option Int :=
  let core : Bool × List Char :=
    match s.toList with
    | '-' :: r => (true, r)
    | '+' :: r => (false, r)
    | r => (false, r)
  if core.2 == [] || !core.2.all isDigitChar then none
  else
    let v : Int := core.2.foldl (fun a c => a * 10 + ((c.toNat : Int) - 48)) 0
    let v := if core.1 then -v else v
    if v < -9223372036854775808 || 9223372036854775807 < v then none
    else some v

/-- Modelled from Go `strconv.ParseFloat(s, 64)`, restricted to plain decimal
forms (optional sign, digits, optional fraction, optional decimal exponent);
the value is kept as an exact rational, per the header note on floats. -/
def parseGoFloat (s : String) : Option ℚ :=
  let core : Bool × List Char :=
    match s.toList with
    | '-' :: r => (true, r)
    | '+' :: r => (false, r)
    | r => (false, r)
  let intPart := takeDigitRun core.2
  let fracPart : Option (List Char × List Char) :=
    match intPart.2 with
    | '.' :: more =>
      let r := takeDigitRun more
      some (r.1, r.2)
    | rest => some ([], rest)
  match fracPart with
  | none => none
  | some (fds, rest) =>
    if intPart.1 == [] && fds == [] then none
    else
      let expPart : Option (Int × List Char) :=
        match rest with
        | 'e' :: more =>
          match more with
          | '-' :: r =>
            match takeDigitRun r with
            | ([], _) => none
            | (ds, after) =>
              some (-(ds.foldl (fun a c => a * 10 + ((c.toNat : Int) - 48)) 0), after)
          | '+' :: r =>
            match takeDigitRun r with
            | ([], _) => none
            | (ds, after) =>
              some (ds.foldl (fun a c => a * 10 + ((c.toNat : Int) - 48)) 0, after)
          | r =>
            match takeDigitRun r with
            | ([], _) => none
            | (ds, after) =>
              some (ds.foldl (fun a c => a * 10 + ((c.toNat : Int) - 48)) 0, after)
        | r => some (0, r)
      match expPart with
      | none => none
      | some (e, rest) =>
        if rest != [] then none
        else
          let mant : ℚ :=
            (intPart.1.foldl (fun a c => a * 10 + ((c.toNat : Nat) - 48)) 0 : ℚ) +
              (fds.foldl (fun a c => a * 10 + ((c.toNat : Nat) - 48)) 0 : ℚ) /
                (10 : ℚ) ^ fds.length
          let v := mant * (10 : ℚ) ^ e
          some (if core.1 then -v else v)

/-! ## JSON values and iterator error state -/

/-- A JSON value, as jsoniter's `WhatIsNext` classifies it. Arrays and objects
are omitted: every decoder in tcodec.go handles them through the same default
skip-and-report-error branch that handles booleans, so a boolean stands for all
three shapes. The output side reuses the same type: `WriteNil` produces
`jnull`, `WriteFloat64`/`WriteInt64` produce `jnum` (the number's exact value;
its textual rendering is not modelled), `WriteString` and the raw pre-quoted
buffer append of `stdCodec.EncodeTime` both produce the JSON string `jstr`. -/
inductive JsonValue
  | jnull
  | jbool (b : Bool)
  | jnum (q : ℚ)
  | jstr (s : String)
deriving DecidableEq

/-- An iterator error (`iter.Error` / `iter.ReportError`), reduced to a
message; the message texts are abbreviated, no claim depends on their exact
wording. `none` is a clean iterator. -/
abbrev Err := String

/-- jsoniter `Iterator.ReadInt64` on a JSON number: reports an error when the
number is not an integer ("can not decode float as int") or overflows int64.
On the float error path jsoniter has already consumed the integer prefix of
the digits and returns it, which is the value truncated toward zero. -/
def readInt64 (q : ℚ) : Int × Option Err :=
  if q.den != 1 then
    (q.num.tdiv (q.den : Int), some "assertInteger: can not decode float as int")
  else if q.num < -9223372036854775808 || 9223372036854775807 < q.num then
    (0, some "ReadInt64: overflow")
  else (q.num, none)

/-- `unixSecondsCodec.DecodeTime`: numbers through `UnixSeconds`; null and the
empty string give the zero time with no error; other strings go through
`strconv.ParseFloat`; any other JSON shape is skipped and reported. -/
def unixSecondsDecode (v : JsonValue) : GoTime × Option Err :=
  match v with
  | .jnum q => (UnixSeconds q, none)
  | .jnull => (zeroTime, none)
  | .jstr s =>
    if s == "" then (zeroTime, none)
    else
      match parseGoFloat s with
      | some f => (UnixSeconds f, none)
      | none => (zeroTime, some "ReadUnixSeconds: invalid syntax")
  | _ => (zeroTime, some "ReadUnixSeconds: invalid JSON value")

/-- `unixMillisecondsCodec.DecodeTime`: numbers through `ReadInt64` (note the
error path still returns `UnixMilliseconds` of the partial value); null and
the empty string give the zero time; other strings go through
`strconv.ParseInt`; any other shape is skipped and reported. -/
def unixMillisecondsDecode (v : JsonValue) : GoTime × Option Err :=
  match v with
  | .jnum q =>
    let r := readInt64 q
    (UnixMilliseconds r.1, r.2)
  | .jnull => (zeroTime, none)
  | .jstr s =>
    if s == "" then (zeroTime, none)
    else
      match parseGoInt s with
      | some n => (UnixMilliseconds n, none)
      | none => (zeroTime, some "ReadUnixMilliseconds: invalid syntax")
  | _ => (zeroTime, some "ReadUnixMilliseconds: invalid JSON value")

/-- `layoutCodec.DecodeTime`: strings are parsed with the layout (the empty
string short-circuits to the zero time; on a parse error the zero value that
`time.Parse` returned is kept and the error reported); null gives the zero
time; any other shape is skipped and reported. -/
def layoutDecode (layout : String) (v : JsonValue) : GoTime × Option Err :=
  match v with
  | .jstr s =>
    if s == "" then (zeroTime, none)
    else
      match goTimeParse layout s with
      | .ok t => (t, none)
      | .error e => (zeroTime, some e)
  | .jnull => (zeroTime, none)
  | _ => (zeroTime, some "DecodeTime: invalid JSON value")

/-- `stdCodec.DecodeTime`: `iter.ReadString()` (which maps JSON null to the
empty string with no error, and reports on any non-string, non-null shape)
followed by `time.Parse(time.RFC3339, ts)`; in particular the empty string and
null reach `time.Parse` and produce a parse error. -/
def stdDecode (v : JsonValue) : GoTime × Option Err :=
  match v with
  | .jstr s =>
    match parseRFC3339 s with
    | .ok t => (t, none)
    | .error e => (zeroTime, some e)
  | .jnull =>
    match parseRFC3339 "" with
    | .ok t => (t, none)
    | .error e => (zeroTime, some e)
  | _ => (zeroTime, some "ReadString: expects string or null")

/-! ## Codec values and combinators -/

/-- The runtime `TimeCodec`/`TimeEncoder`/`TimeDecoder` values of tcodec.go:
the four base codecs and the wrapper structs the combinators build
(`joinCodec`, `locEncoder`, `locDecoder`, `tryDecoder`). -/
inductive CodecVal
  | unixSecondsC
  | unixMillisecondsC
  | layoutC (layout : String)
  | stdC
  | joinC (encode : CodecVal) (decode : CodecVal)
  | locEncoderC (encode : CodecVal) (loc : Location)
  | locDecoderC (decode : CodecVal) (loc : Location)
  | tryDecoderC (decoders : List CodecVal)

/-- Is this value a `*joinCodec`? (The `.(*joinCodec)` type assertions.) -/
def isJoin : CodecVal → Bool
  | .joinC _ _ => true
  | _ => false

/-- `resolveEncoder`: unwrap one `joinCodec` level on the encoder side (the
nil branch of the Go function is irrelevant here: the model has no nil
interface values). -/
def resolveEncoder : CodecVal → CodecVal
  | .joinC enc _ => enc
  | c => c

/-- `resolveDecoder`: unwrap one `joinCodec` level on the decoder side. -/
def resolveDecoder : CodecVal → CodecVal
  | .joinC _ dec => dec
  | c => c

/-- The `if c, ok := decode.(*joinCodec); ok { decode = c.decode }` step of
`Join`. -/
def joinUnwrapDec : CodecVal → CodecVal
  | .joinC _ dec => dec
  | c => c

/-- The `if c, ok := encode.(*joinCodec); ok { encode = c.encode }` step of
`Join`. -/
def joinUnwrapEnc : CodecVal → CodecVal
  | .joinC enc _ => enc
  | c => c

/-- `Join`: unwrap a `joinCodec` argument on each side, then build a
`joinCodec` from the resolved encoder and decoder. -/
def Join (decode encode : CodecVal) : CodecVal :=
  .joinC (resolveEncoder (joinUnwrapEnc encode))
    (resolveDecoder (joinUnwrapDec decode))

/-- The `if unwrap, ok := enc.(*locEncoder); ok { enc = resolveEncoder(unwrap.encode) }`
step of `EncodeIn`. -/
def locUnwrapEnc : CodecVal → CodecVal
  | .locEncoderC inner _ => resolveEncoder inner
  | c => c

/-- `EncodeIn`: resolve, unwrap one `locEncoder` level, and wrap the resolved
result in a `locEncoder` carrying the new location. -/
def EncodeIn (loc : Location) (enc : CodecVal) : CodecVal :=
  .locEncoderC (resolveEncoder (locUnwrapEnc (resolveEncoder enc))) loc

/-- The `if unwrap, ok := dec.(*locDecoder); ok { dec = resolveDecoder(unwrap.decode) }`
step of `DecodeIn`. -/
def locUnwrapDec : CodecVal → CodecVal
  | .locDecoderC inner _ => resolveDecoder inner
  | c => c

/-- `DecodeIn`: resolve, unwrap one `locDecoder` level, and wrap in a
`locDecoder` carrying the new location (unlike `EncodeIn`, the Go code does
not resolve again inside the struct literal). -/
def DecodeIn (loc : Location) (dec : CodecVal) : CodecVal :=
  .locDecoderC (locUnwrapDec (resolveDecoder dec)) loc

/-- A well-formedness invariant satisfied by every codec value the tcodec API
can build: a `joinCodec` never directly contains another `joinCodec`, on
either side or under a location wrapper. The combinators enforce this by
resolving before wrapping; only a hand-assembled nested `joinCodec` (not
constructible through the exported API) could violate it. -/
def wfCodec : CodecVal → Bool
  | .joinC enc dec => !isJoin enc && !isJoin dec && wfCodec enc && wfCodec dec
  | .locEncoderC enc _ => !isJoin enc && wfCodec enc
  | .locDecoderC dec _ => !isJoin dec && wfCodec dec
  | _ => true

/-- Events on the shared iterator pool, for the resource accounting of the
fallback chain. -/
inductive PoolEvent
  | borrow
  | ret
deriving DecidableEq, BEq

/-! `decodeVal` is `DecodeTime` of every decoder value; the pair it returns is
the decoded time and the error state the decode left on the iterator it read
from (starting from a clean iterator). `tryLoopRun` is the
`for i, dec := range d.decoders` loop of `tryDecoder.DecodeTime`: each attempt
reads a fresh iterator over the same raw value (`ResetBytes` plus
`child.Error = nil` for `i != 0`; a freshly borrowed, clean iterator for
`i = 0`); a successful attempt returns the pool iterator and exits; when the
list is exhausted the last attempt's error is kept and the iterator returned.
The third component is the trace of pool events after the borrow. -/
mutual

def decodeVal : CodecVal → JsonValue → GoTime × Option Err
  | .unixSecondsC, v => unixSecondsDecode v
  | .unixMillisecondsC, v => unixMillisecondsDecode v
  | .layoutC layout, v => layoutDecode layout v
  | .stdC, v => stdDecode v
  | .joinC _ dec, v => decodeVal dec v
  | .locEncoderC _ _, _ => (zeroTime, some "not a decoder")
  | .locDecoderC dec loc, v =>
    let r := decodeVal dec v
    (r.1.inLoc loc, r.2)
  | .tryDecoderC ds, v =>
    let r := tryLoopRun ds v none
    (r.1, r.2.1)

def tryLoopRun : List CodecVal → JsonValue → Option Err →
    GoTime × Option Err × List PoolEvent
  | [], _, lastErr => (zeroTime, lastErr, [.ret])
  | d :: rest, v, _ =>
    match decodeVal d v with
    | (tm, none) => (tm, none, [.ret])
    | (_, some e) => tryLoopRun rest v (some e)

end

/-- `tryDecoder.DecodeTime` on the decoder list `ds`: skip the raw value off
the caller's iterator, borrow a pooled iterator over those bytes, run the
attempt loop, and (in the all-fail case) copy the last error onto the caller's
iterator. Returns the decoded time, the error left on the caller's iterator
(assuming it was clean before the call), and the full pool-event trace. -/
def tryDecodeRun (ds : List CodecVal) (v : JsonValue) :
    GoTime × Option Err × List PoolEvent :=
  let r := tryLoopRun ds v none
  (r.1, r.2.1, .borrow :: r.2.2)

/-- The observable result of `tryDecoder.DecodeTime`: decoded time and caller
error state. -/
def tryDecodeTime (ds : List CodecVal) (v : JsonValue) : GoTime × Option Err :=
  ((tryDecodeRun ds v).1, (tryDecodeRun ds v).2.1)

/-- `EncodeTime` of every encoder value. `none` for the two decoder-only
wrappers, which Go's type system keeps away from encoder positions. -/
def encodeVal : CodecVal → GoTime → Option JsonValue
  | .unixSecondsC, t =>
    some
      (if t.isZero then .jnull
       else .jnum (((truncMicro t).nanos : ℚ) / 1000000000))
  | .unixMillisecondsC, t =>
    some (if t.isZero then .jnull else .jnum ((t.nanos.tdiv 1000000 : Int) : ℚ))
  | .layoutC layout, t => some (.jstr (goTimeFormat t layout))
  | .stdC, t => some (.jstr (formatRFC3339 t true))
  | .joinC enc _, t => encodeVal enc t
  | .locEncoderC enc loc, t => encodeVal enc (t.inLoc loc)
  | .locDecoderC _ _, _ => none
  | .tryDecoderC _, _ => none

/-! ## Helper lemmas -/

theorem mem_AppendAnyString (vs : List GoStr) (coll : List GoStr) (x : GoStr) :
    x ∈ AppendAnyString coll vs ↔ x ∈ coll ∨ x ∈ vs := by
  induction vs generalizing coll with
  | nil => simp [AppendAnyString]
  | cons v vs ih =>
    have hstep : AppendAnyString coll (v :: vs)
        = AppendAnyString (if v ∈ coll then coll else coll ++ [v]) vs := rfl
    rw [hstep, ih]
    by_cases h : v ∈ coll
    · rw [if_pos h]
      simp only [List.mem_cons]
      constructor
      · rintro (h1 | h1)
        · exact Or.inl h1
        · exact Or.inr (Or.inr h1)
      · rintro (h1 | h1 | h1)
        · exact Or.inl h1
        · exact Or.inl (h1 ▸ h)
        · exact Or.inr h1
    · rw [if_neg h]
      simp only [List.mem_append, List.mem_singleton, List.mem_cons]
      tauto

theorem acct_step (pl : AWSPantherLog) (v x : GoStr) :
    (x ∈ ((if awsAccountIDRegexMatch v then
        { pl with
          accountIds := some (AppendAnyString (pl.accountIds.getD []) [v]) }
      else pl) : AWSPantherLog).accountIds.getD [] ↔
      x ∈ pl.accountIds.getD [] ∨ (x = v ∧ awsAccountIDRegexMatch x = true)) := by
  by_cases h : awsAccountIDRegexMatch v
  · rw [if_pos h]
    simp only [Option.getD_some, mem_AppendAnyString, List.mem_singleton]
    constructor
    · rintro (h1 | h1)
      · exact Or.inl h1
      · exact Or.inr ⟨h1, h1 ▸ h⟩
    · rintro (h1 | ⟨h1, _⟩)
      · exact Or.inl h1
      · exact Or.inr h1
  · rw [if_neg h]
    constructor
    · exact Or.inl
    · rintro (h1 | ⟨h1, h2⟩)
      · exact h1
      · exact absurd (h1 ▸ h2) h

theorem mem_AppendAnyAWSAccountIds (vs : List GoStr) (pl : AWSPantherLog)
    (x : GoStr) :
    x ∈ (AppendAnyAWSAccountIds pl vs).accountIds.getD [] ↔
      x ∈ pl.accountIds.getD [] ∨ (x ∈ vs ∧ awsAccountIDRegexMatch x = true) := by
  induction vs generalizing pl with
  | nil => simp [AppendAnyAWSAccountIds]
  | cons v vs ih =>
    have hstep : AppendAnyAWSAccountIds pl (v :: vs)
        = AppendAnyAWSAccountIds
            (if awsAccountIDRegexMatch v then
              { pl with
                accountIds :=
                  some (AppendAnyString (pl.accountIds.getD []) [v]) }
            else pl) vs := rfl
    rw [hstep, ih, acct_step]
    simp only [List.mem_cons]
    constructor
    · rintro ((h1 | ⟨h1, h2⟩) | ⟨h1, h2⟩)
      · exact Or.inl h1
      · exact Or.inr ⟨Or.inl h1, h2⟩
      · exact Or.inr ⟨Or.inr h1, h2⟩
    · rintro (h1 | ⟨h1 | h1, h2⟩)
      · exact Or.inl (Or.inl h1)
      · exact Or.inl (Or.inr ⟨h1, h2⟩)
      · exact Or.inr ⟨h1, h2⟩

theorem AppendAnyAWSAccountIds_of_noMatch (vs : List GoStr)
    (pl : AWSPantherLog) (h : ∀ v ∈ vs, awsAccountIDRegexMatch v = false) :
    AppendAnyAWSAccountIds pl vs = pl := by
  induction vs generalizing pl with
  | nil => rfl
  | cons v vs ih =>
    have hv : awsAccountIDRegexMatch v = false := h v (List.mem_cons_self v vs)
    have hstep : AppendAnyAWSAccountIds pl (v :: vs)
        = AppendAnyAWSAccountIds
            (if awsAccountIDRegexMatch v then
              { pl with
                accountIds :=
                  some (AppendAnyString (pl.accountIds.getD []) [v]) }
            else pl) vs := rfl
    rw [hstep, if_neg (by simp [hv])]
    exact ih pl (fun u hu => h u (List.mem_cons_of_mem v hu))

theorem accountBool_iff (input : GoStr) :
    (input.length == 12 && awsAccountIDRegexMatch input) = true ↔
      input.length = 12 ∧ ∀ b ∈ input, 48 ≤ b ∧ b ≤ 57 := by
  simp only [awsAccountIDRegexMatch, Bool.and_eq_true, beq_iff_eq,
    List.all_eq_true, decide_eq_true_eq]
  constructor
  · rintro ⟨h1, _, h3⟩
    exact ⟨h1, fun b hb => by simpa using h3 b hb⟩
  · rintro ⟨h1, h2⟩
    exact ⟨h1, h1, fun b hb => by simpa using h2 b hb⟩

theorem tryLoopRun_nil (v : JsonValue) (le : Option Err) :
    tryLoopRun [] v le = (zeroTime, le, [PoolEvent.ret]) := by
  simp [tryLoopRun]

theorem tryLoopRun_cons (d : CodecVal) (rest : List CodecVal) (v : JsonValue)
    (le : Option Err) :
    tryLoopRun (d :: rest) v le =
      match decodeVal d v with
      | (tm, none) => (tm, none, [PoolEvent.ret])
      | (_, some e) => tryLoopRun rest v (some e) := by
  simp [tryLoopRun]

theorem tryLoopRun_events (ds : List CodecVal) (v : JsonValue) (le : Option Err) :
    (tryLoopRun ds v le).2.2 = [PoolEvent.ret] := by
  induction ds generalizing le with
  | nil => rw [tryLoopRun_nil]
  | cons d rest ih =>
    rw [tryLoopRun_cons]
    rcases h : decodeVal d v with ⟨tm, e⟩
    cases e with
    | none => rfl
    | some e => exact ih (some e)

theorem tryLoopRun_lastErr (d : CodecVal) (rest : List CodecVal)
    (v : JsonValue) (a b : Option Err) :
    tryLoopRun (d :: rest) v a = tryLoopRun (d :: rest) v b := by
  rw [tryLoopRun_cons, tryLoopRun_cons]

theorem tryLoopRun_cons_ok {d : CodecVal} {v : JsonValue} {tm : GoTime}
    (rest : List CodecVal) (le : Option Err) (h : decodeVal d v = (tm, none)) :
    tryLoopRun (d :: rest) v le = (tm, none, [PoolEvent.ret]) := by
  rw [tryLoopRun_cons, h]

theorem tryLoopRun_cons_fail {d : CodecVal} {v : JsonValue} {tm : GoTime}
    {e : Err} (rest : List CodecVal) (le : Option Err)
    (h : decodeVal d v = (tm, some e)) :
    tryLoopRun (d :: rest) v le = tryLoopRun rest v (some e) := by
  rw [tryLoopRun_cons, h]

theorem tryLoopRun_allFail (ds : List CodecVal) (d : CodecVal) (v : JsonValue)
    (h : ∀ x ∈ d :: ds, (decodeVal x v).2 ≠ none) :
    tryLoopRun (d :: ds) v none
      = (zeroTime, (decodeVal ((d :: ds).getLast (by simp)) v).2,
          [PoolEvent.ret]) := by
  induction ds generalizing d with
  | nil =>
    rcases hd : decodeVal d v with ⟨tm, e⟩
    cases e with
    | none => exact absurd (by rw [hd]) (h d (List.mem_cons_self d []))
    | some e =>
      rw [tryLoopRun_cons, hd]
      simp [tryLoopRun_nil, List.getLast, hd]
  | cons d' rest ih =>
    rcases hd : decodeVal d v with ⟨tm, e⟩
    cases e with
    | none => exact absurd (by rw [hd]) (h d (List.mem_cons_self d (d' :: rest)))
    | some e =>
      rw [tryLoopRun_cons, hd]
      have hlast : (d :: d' :: rest).getLast (by simp)
          = (d' :: rest).getLast (by simp) := by
        simp [List.getLast_cons]
      rw [show (match (tm, some e) with
            | (tm, none) => (tm, (none : Option Err), [PoolEvent.ret])
            | (_, some e) => tryLoopRun (d' :: rest) v (some e))
          = tryLoopRun (d' :: rest) v (some e) from rfl]
      rw [tryLoopRun_lastErr d' rest v (some e) none]
      rw [ih d' (fun x hx => h x (List.mem_cons_of_mem d hx))]
      rw [hlast]

theorem resolveEncoder_of_noJoin {c : CodecVal} (h : isJoin c = false) :
    resolveEncoder c = c := by
  cases c <;> simp_all [isJoin, resolveEncoder]

theorem resolveDecoder_of_noJoin {c : CodecVal} (h : isJoin c = false) :
    resolveDecoder c = c := by
  cases c <;> simp_all [isJoin, resolveDecoder]

theorem noJoin_resolveEncoder {c : CodecVal} (h : wfCodec c = true) :
    isJoin (resolveEncoder c) = false := by
  cases c <;> simp_all [wfCodec, resolveEncoder, isJoin]

theorem noJoin_resolveDecoder {c : CodecVal} (h : wfCodec c = true) :
    isJoin (resolveDecoder c) = false := by
  cases c <;> simp_all [wfCodec, resolveDecoder, isJoin]

theorem wf_resolveEncoder {c : CodecVal} (h : wfCodec c = true) :
    wfCodec (resolveEncoder c) = true := by
  cases c <;> simp_all [wfCodec, resolveEncoder]

theorem wf_resolveDecoder {c : CodecVal} (h : wfCodec c = true) :
    wfCodec (resolveDecoder c) = true := by
  cases c <;> simp_all [wfCodec, resolveDecoder]

theorem noJoin_joinUnwrapEnc {c : CodecVal} (h : wfCodec c = true) :
    isJoin (resolveEncoder (joinUnwrapEnc c)) = false := by
  cases c with
  | joinC enc dec =>
    have h1 : isJoin enc = false := by simp_all [wfCodec]
    simpa [joinUnwrapEnc, resolveEncoder_of_noJoin h1] using h1
  | _ => exact noJoin_resolveEncoder h

theorem noJoin_joinUnwrapDec {c : CodecVal} (h : wfCodec c = true) :
    isJoin (resolveDecoder (joinUnwrapDec c)) = false := by
  cases c with
  | joinC enc dec =>
    have h1 : isJoin dec = false := by simp_all [wfCodec]
    simpa [joinUnwrapDec, resolveDecoder_of_noJoin h1] using h1
  | _ => exact noJoin_resolveDecoder h

theorem noJoin_locUnwrapEnc {c : CodecVal} (h : wfCodec c = true)
    (hj : isJoin c = false) : isJoin (locUnwrapEnc c) = false := by
  cases c with
  | locEncoderC inner l =>
    have h1 : isJoin inner = false := by simp_all [wfCodec]
    simpa [locUnwrapEnc, resolveEncoder_of_noJoin h1] using h1
  | _ => simp_all [locUnwrapEnc, isJoin]

theorem noJoin_locUnwrapDec {c : CodecVal} (h : wfCodec c = true)
    (hj : isJoin c = false) : isJoin (locUnwrapDec c) = false := by
  cases c with
  | locDecoderC inner l =>
    have h1 : isJoin inner = false := by simp_all [wfCodec]
    simpa [locUnwrapDec, resolveDecoder_of_noJoin h1] using h1
  | _ => simp_all [locUnwrapDec, isJoin]

/-! ## Claims -/

/-- C4: `scanResourceInstanceID` as the code ships it, evaluated at the input
the claim's guard description disagrees with. For the ARN
"arn:aws:ec2:us-east-1:123456789012:instance/x" the parse succeeds with
resource segment "instance/x"; that segment starts with "instance/", its last
"/" sits at byte index 8 of 10 bytes — so the slash is NOT the final character
and the claim (and the code's own `not if ends in "/"` comment) require the
instance-id scanner to run on "x" — yet the shipped guard
`slashIndex < len(input)-2` rejects it, and the scanner is never invoked: the
full write trace carries only the ARN and the account id. -/
theorem claim4_guard_divergence :
    ScanARN (asciiStr "not-an-arn") = []
    ∧ arnParse (asciiStr "arn:aws:ec2:us-east-1:123456789012:instance/x")
        = some ⟨asciiStr "aws", asciiStr "ec2", asciiStr "us-east-1",
            asciiStr "123456789012", asciiStr "instance/x"⟩
    ∧ bytesStartsWith (asciiStr "instance/x") (asciiStr "instance/") = true
    ∧ lastIndexByte (asciiStr "instance/x") 47 = 8
    ∧ (asciiStr "instance/x").length = 10
    ∧ resourceInstanceArg (asciiStr "instance/x") = none
    ∧ ScanARN (asciiStr "arn:aws:ec2:us-east-1:123456789012:instance/x")
        = [(FieldARN, asciiStr "arn:aws:ec2:us-east-1:123456789012:instance/x"),
            (FieldAccountID, asciiStr "123456789012")] := by
  decide

/-- C5: `ScanAccountID` writes its input exactly once to the account-id field
precisely when the input is exactly twelve ASCII digits, and writes nothing
otherwise. -/
theorem claim5_account_scanner (input : GoStr) :
    ScanAccountID input =
      if input.length = 12 ∧ ∀ b ∈ input, 48 ≤ b ∧ b ≤ 57 then
        [(FieldAccountID, input)]
      else [] := by
  by_cases h : input.length = 12 ∧ ∀ b ∈ input, 48 ≤ b ∧ b ≤ 57
  · rw [if_pos h]
    unfold ScanAccountID
    rw [if_pos ((accountBool_iff input).mpr h)]
  · rw [if_neg h]
    unfold ScanAccountID
    rw [if_neg (fun hc => h ((accountBool_iff input).mp hc))]

/-- C9 counterexample: the claim says the writer stores every value
unconditionally for every field, but `AppendAnyAWSAccountIds` validates inside
the writer: appending a non-12-digit value to a fresh row stores nothing and
leaves the row untouched. -/
theorem claim9_counterexample :
    AppendAnyAWSAccountIds emptyRow [asciiStr "not-a-valid-account-id"]
      = emptyRow := by
  decide

/-- C9 (amended): the instance-id, ARN and tag append methods store every
value unconditionally — membership after the call is exactly the union of the
old collection and the appended values, so nothing is overwritten — while the
account-id append method stores exactly the values matching the 12-digit
pattern, also as an accumulating union. -/
theorem claim9_writer_accumulates (pl : AWSPantherLog) (values : List GoStr)
    (x : GoStr) :
    (x ∈ (AppendAnyAWSInstanceIds pl values).instanceIds.getD []
      ↔ x ∈ pl.instanceIds.getD [] ∨ x ∈ values)
    ∧ (x ∈ (AppendAnyAWSARNs pl values).arns.getD []
      ↔ x ∈ pl.arns.getD [] ∨ x ∈ values)
    ∧ (x ∈ (AppendAnyAWSTags pl values).tags.getD []
      ↔ x ∈ pl.tags.getD [] ∨ x ∈ values)
    ∧ (x ∈ (AppendAnyAWSAccountIds pl values).accountIds.getD []
      ↔ x ∈ pl.accountIds.getD []
        ∨ (x ∈ values ∧ awsAccountIDRegexMatch x = true)) := by
  refine ⟨?_, ?_, ?_, mem_AppendAnyAWSAccountIds values pl x⟩
  · simpa [AppendAnyAWSInstanceIds] using
      mem_AppendAnyString values (pl.instanceIds.getD []) x
  · simpa [AppendAnyAWSARNs] using
      mem_AppendAnyString values (pl.arns.getD []) x
  · simpa [AppendAnyAWSTags] using
      mem_AppendAnyString values (pl.tags.getD []) x

/-- C10: appending an empty value list through the instance-id, ARN or tag
method still allocates the collection (a nil field becomes non-nil, so the row
is mutated), whereas the account-id method leaves the row completely unchanged
unless some value matches the 12-digit pattern. -/
theorem claim10_lazy_allocation (pl : AWSPantherLog) (values : List GoStr) :
    (AppendAnyAWSInstanceIds pl []).instanceIds = some (pl.instanceIds.getD [])
    ∧ (AppendAnyAWSARNs pl []).arns = some (pl.arns.getD [])
    ∧ (AppendAnyAWSTags pl []).tags = some (pl.tags.getD [])
    ∧ (pl.instanceIds = none → AppendAnyAWSInstanceIds pl [] ≠ pl)
    ∧ (pl.arns = none → AppendAnyAWSARNs pl [] ≠ pl)
    ∧ (pl.tags = none → AppendAnyAWSTags pl [] ≠ pl)
    ∧ ((∀ v ∈ values, awsAccountIDRegexMatch v = false) →
        AppendAnyAWSAccountIds pl values = pl) := by
  refine ⟨rfl, rfl, rfl, ?_, ?_, ?_,
    AppendAnyAWSAccountIds_of_noMatch values pl⟩
  · intro h heq
    have := congrArg AWSPantherLog.instanceIds heq
    rw [h] at this
    exact Option.noConfusion this
  · intro h heq
    have := congrArg AWSPantherLog.arns heq
    rw [h] at this
    exact Option.noConfusion this
  · intro h heq
    have := congrArg AWSPantherLog.tags heq
    rw [h] at this
    exact Option.noConfusion this

/-- C10 witness: the concrete checks at a fresh row — an empty append through
the instance-id method allocates an empty collection and changes the row,
while the account-id method given only a non-matching value is the identity. -/
theorem claim10_witness :
    (AppendAnyAWSInstanceIds emptyRow []).instanceIds = some []
    ∧ AppendAnyAWSInstanceIds emptyRow [] ≠ emptyRow
    ∧ AppendAnyAWSAccountIds emptyRow [asciiStr "12345"] = emptyRow := by
  refine ⟨(claim10_lazy_allocation emptyRow []).1,
    (claim10_lazy_allocation emptyRow []).2.2.2.1 rfl,
    (claim10_lazy_allocation emptyRow [asciiStr "12345"]).2.2.2.2.2.2 ?_⟩
  decide

/-- C1 counterexample: the zero timestamp does NOT encode as JSON null on
every codec — the standard codec and a layout codec format it as the string
"0001-01-01T00:00:00Z" (their `EncodeTime` has no zero check at all). -/
theorem claim1_counterexample :
    encodeVal CodecVal.stdC zeroTime
      = some (JsonValue.jstr "0001-01-01T00:00:00Z")
    ∧ encodeVal (CodecVal.layoutC rfc3339Layout) zeroTime
      = some (JsonValue.jstr "0001-01-01T00:00:00Z")
    ∧ encodeVal CodecVal.stdC zeroTime ≠ some JsonValue.jnull
    ∧ encodeVal (CodecVal.layoutC rfc3339Layout) zeroTime
      ≠ some JsonValue.jnull := by
  refine ⟨by decide, by decide, by decide, by decide⟩

/-- C1 (amended): the epoch-seconds and epoch-millis codecs encode every zero
timestamp as JSON null; the layout-based and standard codecs never emit null —
they always format the timestamp (the zero timestamp included) as a JSON
string. -/
theorem claim1_zero_encodes_null
    (t : GoTime) (ht : t.isZero = true) :
    encodeVal CodecVal.unixSecondsC t = some JsonValue.jnull
    ∧ encodeVal CodecVal.unixMillisecondsC t = some JsonValue.jnull
    ∧ (∀ layout : String, ∀ u : GoTime,
        ∃ s, encodeVal (CodecVal.layoutC layout) u = some (JsonValue.jstr s))
    ∧ (∀ u : GoTime,
        ∃ s, encodeVal CodecVal.stdC u = some (JsonValue.jstr s)) := by
  refine ⟨by simp [encodeVal, ht], by simp [encodeVal, ht],
    fun layout u => ⟨goTimeFormat u layout, rfl⟩,
    fun u => ⟨formatRFC3339 u true, rfl⟩⟩

/-- C1 witness: the amended statement applied at the zero time itself. -/
theorem claim1_zero_encodes_null_witness :
    encodeVal CodecVal.unixSecondsC zeroTime = some JsonValue.jnull
    ∧ encodeVal CodecVal.unixMillisecondsC zeroTime = some JsonValue.jnull :=
  ⟨(claim1_zero_encodes_null zeroTime (by decide)).1,
    (claim1_zero_encodes_null zeroTime (by decide)).2.1⟩

/-- C2 counterexample: the standard codec does NOT decode JSON null or the
empty string cleanly — `iter.ReadString()` maps null to "", and
`time.Parse(time.RFC3339, "")` then reports a parse error, so an error is
left on the iterator in both cases. -/
theorem claim2_counterexample :
    (decodeVal CodecVal.stdC JsonValue.jnull).2 ≠ none
    ∧ (decodeVal CodecVal.stdC (JsonValue.jstr "")).2 ≠ none := by
  refine ⟨by decide, by decide⟩

/-- C2 (amended): the epoch-seconds, epoch-millis and every layout codec
decode JSON null and the empty string to the zero timestamp with no error; the
standard codec also returns the zero timestamp for both inputs but reports a
decode error. -/
theorem claim2_null_empty_decode :
    decodeVal CodecVal.unixSecondsC JsonValue.jnull = (zeroTime, none)
    ∧ decodeVal CodecVal.unixSecondsC (JsonValue.jstr "") = (zeroTime, none)
    ∧ decodeVal CodecVal.unixMillisecondsC JsonValue.jnull = (zeroTime, none)
    ∧ decodeVal CodecVal.unixMillisecondsC (JsonValue.jstr "") = (zeroTime, none)
    ∧ (∀ layout : String,
        decodeVal (CodecVal.layoutC layout) JsonValue.jnull = (zeroTime, none)
        ∧ decodeVal (CodecVal.layoutC layout) (JsonValue.jstr "")
            = (zeroTime, none))
    ∧ (decodeVal CodecVal.stdC JsonValue.jnull).1 = zeroTime
    ∧ (decodeVal CodecVal.stdC (JsonValue.jstr "")).1 = zeroTime
    ∧ (decodeVal CodecVal.stdC JsonValue.jnull).2.isSome = true
    ∧ (decodeVal CodecVal.stdC (JsonValue.jstr "")).2.isSome = true := by
  refine ⟨rfl, rfl, rfl, rfl, fun layout => ⟨rfl, rfl⟩,
    by decide, by decide, by decide, by decide⟩

/-- C3: the fallback chain tries the primary decoder first on the raw value;
a successful attempt's time is returned with a clean caller iterator; a failed
attempt hands the very same raw value to the rest of the chain (which behaves
exactly as a chain started on it, the retry reading the original bytes with a
cleared error); and when every decoder fails the caller's iterator carries
exactly the LAST decoder's error, with the zero timestamp returned. -/
theorem claim3_fallback_chain (d : CodecVal) (ds : List CodecVal)
    (v : JsonValue) :
    (∀ tm, decodeVal d v = (tm, none) → tryDecodeTime (d :: ds) v = (tm, none))
    ∧ ((decodeVal d v).2 ≠ none → ds ≠ [] →
        tryDecodeTime (d :: ds) v = tryDecodeTime ds v)
    ∧ ((∀ x ∈ d :: ds, (decodeVal x v).2 ≠ none) →
        tryDecodeTime (d :: ds) v
          = (zeroTime, (decodeVal ((d :: ds).getLast (by simp)) v).2)) := by
  refine ⟨?_, ?_, ?_⟩
  · intro tm h
    unfold tryDecodeTime tryDecodeRun
    rw [tryLoopRun_cons_ok ds none h]
  · intro h hne
    rcases he : decodeVal d v with ⟨tm, e⟩
    cases e with
    | none => exact absurd (by rw [he]) h
    | some e =>
      cases ds with
      | nil => exact absurd rfl hne
      | cons d' rest =>
        unfold tryDecodeTime tryDecodeRun
        rw [tryLoopRun_cons_fail (d' :: rest) none he,
          tryLoopRun_lastErr d' rest v (some e) none]
  · intro h
    unfold tryDecodeTime tryDecodeRun
    rw [tryLoopRun_allFail ds d v h]

/-- C3 witness: a chain whose primary (the standard codec) fails on the JSON
number 5 falls through to the epoch-seconds decoder and yields its result; a
chain of one failing decoder surfaces that (last) decoder's error with the
zero time. -/
theorem claim3_fallback_chain_witness :
    tryDecodeTime [CodecVal.stdC, CodecVal.unixSecondsC] (JsonValue.jnum 5)
      = tryDecodeTime [CodecVal.unixSecondsC] (JsonValue.jnum 5)
    ∧ tryDecodeTime [CodecVal.unixSecondsC] (JsonValue.jnum 5)
      = (UnixSeconds 5, none)
    ∧ tryDecodeTime [CodecVal.stdC] (JsonValue.jbool true)
      = (zeroTime,
          (decodeVal ([CodecVal.stdC].getLast (by simp))
            (JsonValue.jbool true)).2) :=
  ⟨(claim3_fallback_chain CodecVal.stdC [CodecVal.unixSecondsC]
      (JsonValue.jnum 5)).2.1 (by decide) (by simp),
   (claim3_fallback_chain CodecVal.unixSecondsC [] (JsonValue.jnum 5)).1
      (UnixSeconds 5) rfl,
   (claim3_fallback_chain CodecVal.stdC [] (JsonValue.jbool true)).2.2
      (by decide)⟩

/-- C6: re-applying an identical combinator never nests wrappers. For
well-formed codec values (the invariant the exported API maintains: no
`joinCodec` directly inside a `joinCodec` or a location wrapper), joining two
already-joined codecs returns exactly the single join, and re-applying a
timezone override replaces the previous one on both the encode and decode
sides. -/
theorem claim6_combinator_idempotence (d e : CodecVal) (loc1 loc2 : Location)
    (hd : wfCodec d = true) (he : wfCodec e = true) :
    Join (Join d e) (Join d e) = Join d e
    ∧ EncodeIn loc2 (EncodeIn loc1 e) = EncodeIn loc2 e
    ∧ DecodeIn loc2 (DecodeIn loc1 d) = DecodeIn loc2 d := by
  have hE : isJoin (resolveEncoder (joinUnwrapEnc e)) = false :=
    noJoin_joinUnwrapEnc he
  have hD : isJoin (resolveDecoder (joinUnwrapDec d)) = false :=
    noJoin_joinUnwrapDec hd
  refine ⟨?_, ?_, ?_⟩
  · have h1 : Join (Join d e) (Join d e)
        = CodecVal.joinC
            (resolveEncoder (resolveEncoder (joinUnwrapEnc e)))
            (resolveDecoder (resolveDecoder (joinUnwrapDec d))) := rfl
    rw [h1, resolveEncoder_of_noJoin hE, resolveDecoder_of_noJoin hD]
    rfl
  · have hY : isJoin (locUnwrapEnc (resolveEncoder e)) = false :=
      noJoin_locUnwrapEnc (wf_resolveEncoder he) (noJoin_resolveEncoder he)
    have hX : resolveEncoder (locUnwrapEnc (resolveEncoder e))
        = locUnwrapEnc (resolveEncoder e) := resolveEncoder_of_noJoin hY
    have h2 : EncodeIn loc2 (EncodeIn loc1 e)
        = CodecVal.locEncoderC
            (resolveEncoder (resolveEncoder
              (resolveEncoder (locUnwrapEnc (resolveEncoder e))))) loc2 := rfl
    have h3 : EncodeIn loc2 e
        = CodecVal.locEncoderC
            (resolveEncoder (locUnwrapEnc (resolveEncoder e))) loc2 := rfl
    rw [h2, h3, hX, hX, hX]
  · have hY : isJoin (locUnwrapDec (resolveDecoder d)) = false :=
      noJoin_locUnwrapDec (wf_resolveDecoder hd) (noJoin_resolveDecoder hd)
    have hX : resolveDecoder (locUnwrapDec (resolveDecoder d))
        = locUnwrapDec (resolveDecoder d) := resolveDecoder_of_noJoin hY
    have h4 : DecodeIn loc2 (DecodeIn loc1 d)
        = CodecVal.locDecoderC
            (resolveDecoder (locUnwrapDec (resolveDecoder d))) loc2 := rfl
    have h5 : DecodeIn loc2 d
        = CodecVal.locDecoderC (locUnwrapDec (resolveDecoder d)) loc2 := rfl
    rw [h4, h5, hX]

/-- C6 witness: the idempotence at concrete codecs and locations. -/
theorem claim6_combinator_idempotence_witness :
    Join (Join CodecVal.unixSecondsC CodecVal.stdC)
        (Join CodecVal.unixSecondsC CodecVal.stdC)
      = Join CodecVal.unixSecondsC CodecVal.stdC
    ∧ EncodeIn localLoc (EncodeIn utcLoc CodecVal.stdC)
      = EncodeIn localLoc CodecVal.stdC
    ∧ DecodeIn localLoc (DecodeIn utcLoc CodecVal.unixSecondsC)
      = DecodeIn localLoc CodecVal.unixSecondsC :=
  claim6_combinator_idempotence CodecVal.unixSecondsC CodecVal.stdC
    utcLoc localLoc (by decide) (by decide)

/-- C7: the epoch-seconds codec works through microsecond precision —
`UnixSeconds` always lands on a whole microsecond (its nanosecond count is a
multiple of 1000) for EVERY input, and decoding the JSON number 1577836800.5
then re-encoding reproduces the value to within one microsecond (here,
exactly). -/
theorem claim7_microsecond_precision :
    (∀ q : ℚ, (1000 : Int) ∣ (UnixSeconds q).nanos)
    ∧ unixSecondsDecode (JsonValue.jnum (3155673601 / 2))
        = (UnixSeconds (3155673601 / 2), none)
    ∧ (∃ r : ℚ,
        encodeVal CodecVal.unixSecondsC (UnixSeconds (3155673601 / 2))
          = some (JsonValue.jnum r)
        ∧ |r - 3155673601 / 2| ≤ 1 / 1000000) := by
  have hval : UnixSeconds (3155673601 / 2) = ⟨1577836800500000000, localLoc⟩ := by
    unfold UnixSeconds
    congr 1
    have h1 : (3155673601 / 2 : ℚ) * 1000000 = 1577836800500000 := by norm_num
    rw [h1]
    have h2 : ratTrunc 1577836800500000 = 1577836800500000 := by
      simp [ratTrunc, Rat.num_ofNat, Rat.den_ofNat]
    rw [h2]
    norm_num
  have henc : encodeVal CodecVal.unixSecondsC (UnixSeconds (3155673601 / 2))
      = some (JsonValue.jnum (3155673601 / 2)) := by
    rw [hval]
    have hz : (⟨1577836800500000000, localLoc⟩ : GoTime).isZero = false := by
      decide
    have hm : truncMicro (⟨1577836800500000000, localLoc⟩ : GoTime)
        = ⟨1577836800500000000, localLoc⟩ := by
      unfold truncMicro
      norm_num
    simp only [encodeVal, hz, Bool.false_eq_true, if_false, hm]
    congr 1
    congr 1
    norm_num
  refine ⟨fun q => dvd_mul_left 1000 (ratTrunc (q * 1000000)), rfl,
    ⟨3155673601 / 2, henc, by norm_num⟩⟩

/-- C8: one execution of the fallback chain borrows the pooled iterator
exactly once and returns it exactly once, on every path — whether some
attempt succeeds or every decoder fails. -/
theorem claim8_pool_balance (ds : List CodecVal) (v : JsonValue) :
    ((tryDecodeRun ds v).2.2).count PoolEvent.borrow = 1
    ∧ ((tryDecodeRun ds v).2.2).count PoolEvent.ret = 1 := by
  have h : (tryDecodeRun ds v).2.2
      = PoolEvent.borrow :: (tryLoopRun ds v none).2.2 := rfl
  refine ⟨?_, ?_⟩
  · rw [h, tryLoopRun_events]
    decide
  · rw [h, tryLoopRun_events]
    decide

end Panther
